import Mathlib

/-!
Shallow embedding of the `ReversalLearningTask` environment from
`src/utils/env.py` of the NeurIPS-2020-Reverse-Engineering-RNNs repository.

Modelling conventions:
* Stimuli are an abstract type `σ` and agent hidden states an abstract
  type `η`, since the environment never inspects them.
* Floating-point quantities (side encodings, strengths, probabilities,
  rewards, log-probabilities) are modelled as rationals `ℚ`; the values
  the environment actually manipulates (`-1`, `+1`, `0`, probabilities)
  are exactly representable.
* The random draws consumed by `reset` (the geometric block-length
  samples and the uniformly random first preferred side) are explicit
  arguments, so `reset` becomes a pure function of the draws.
* Out-of-range tensor indexing raises in Python/torch; the embedding
  makes every indexed read and write fallible (`Option`), returning
  `none` exactly where the source would raise.
-/

namespace ReversalLearningTask

/-- The hidden preferred side of a block, the Python strings
`'left'` / `'right'`. -/
inductive Side : Type
  | left : Side
  | right : Side
deriving DecidableEq, Repr

/-- The side alternation performed at the end of each loop iteration in
`reset`: `curr_preferred_side = 'right' if curr_preferred_side == 'left'
else 'left'`. -/
def Side.toggle : Side → Side
  | Side.left => Side.right
  | Side.right => Side.left

/-- The signed encoding used for `blocks_preferred_sides`:
`fill_value=-1. if curr_preferred_side == 'left' else 1.`. -/
def Side.sign : Side → ℚ
  | Side.left => -1
  | Side.right => 1

/-- The output dictionary of the external stimulus creator's
`create_block_stimuli`: three per-trial sequences for one block. -/
structure StimOutput (σ : Type) : Type where
  sampled_stimuli : List σ
  sampled_sides : List ℚ
  sampled_strengths : List ℚ
deriving DecidableEq, Repr

/-- A stimulus creator is the function
`(block_num_trials, block_side_bias_probabilities) ↦ output`. -/
def StimCreator (σ : Type) : Type :=
  ℕ → List ℚ → StimOutput σ

/-- The `info` payload of a `step` output. -/
structure Info : Type where
  stimulus_side : ℚ
  stimulus_strength : ℚ
deriving DecidableEq, Repr

/-- One `step_output` dictionary: `(stimulus, reward, info, done)`. -/
structure Obs (σ : Type) : Type where
  stimulus : σ
  reward : ℚ
  info : Option Info
  done : Bool
deriving DecidableEq, Repr

/-- The default for `right_bias_probs` set in `__init__` when the caller
passes `None`: `[0.8, 0.2]`. -/
def defaultRightBiasProbs : List ℚ := [8/10, 2/10]

/-- The default for `left_bias_probs` set in `__init__` when the caller
passes `None`: `[0.2, 0.8]`. -/
def defaultLeftBiasProbs : List ℚ := [2/10, 8/10]

/-- The `side_bias_probs` dictionary built in `__init__`, after the
`None`-replacement of the two constructor arguments: the pair
`(left, right)` of bias-probability vectors. -/
def initSideBiasProbs (left_bias_probs right_bias_probs : Option (List ℚ)) :
    List ℚ × List ℚ :=
  let right := right_bias_probs.getD defaultRightBiasProbs
  let left := left_bias_probs.getD defaultLeftBiasProbs
  (left, right)

/-- The `left_bias_probs` keyword argument of the factory
`create_biased_choice_worlds`: `[0.8, 0.2]`. -/
def biasedChoiceWorldsLeftBiasProbs : List ℚ := [8/10, 2/10]

/-- The `right_bias_probs` keyword argument of the factory
`create_biased_choice_worlds`: `[0.2, 0.8]`. -/
def biasedChoiceWorldsRightBiasProbs : List ℚ := [2/10, 8/10]

/-- Lookup in the `side_bias_probs` dict: `self.side_bias_probs[side]`. -/
def sideBiasProbs (left_bias_probs right_bias_probs : List ℚ) : Side → List ℚ
  | Side.left => left_bias_probs
  | Side.right => right_bias_probs

/-- The truncation applied to each geometric sample in `reset`:
`if num_trials < 20: ... = 20` then `if num_trials > 100: ... = 100`,
both conditions tested on the original sample. -/
def truncateBlockLength (n : ℕ) : ℕ :=
  let low := if n < 20 then 20 else n
  if n > 100 then 100 else low

/-- `torch.nn.NLLLoss` on a single sample: for a flat 2-vector `input`
of log-probabilities and a scalar `target`, returns `-input[target]`
when the target is a valid index (`0` or `1`), and fails otherwise. -/
def nllLoss (target : ℚ) (input : ℚ × ℚ) : Option ℚ :=
  if target = 0 then some (-input.1)
  else if target = 1 then some (-input.2)
  else none

/-- A tensor element assignment `l[i] = a`: fails (as torch indexing
does) when `i` is out of range. -/
def setAt {α : Type} (l : List α) (i : ℕ) (a : α) : Option (List α) :=
  if i < l.length then some (l.set i a) else none

/-- The per-block arrays accumulated by the `for block_num_trials in
self.num_trials_per_block` loop of `reset`. -/
structure BlockArrays (σ : Type) : Type where
  blocks_stimuli : List (List σ)
  blocks_stimuli_sides : List (List ℚ)
  blocks_stimuli_strengths : List (List ℚ)
  blocks_preferred_sides : List (List ℚ)
deriving DecidableEq, Repr

/-- The block loop of `reset`: for each block, call the stimulus creator
with the current preferred side's bias probabilities, record a constant
preferred-side array for the block, then toggle the preferred side. -/
def buildBlocks {σ : Type} (stimulus_creator : StimCreator σ)
    (side_bias_probs : Side → List ℚ) :
    List ℕ → Side → BlockArrays σ
  | [], _ => ⟨[], [], [], []⟩
  | block_num_trials :: rest, curr_preferred_side =>
    let output := stimulus_creator block_num_trials (side_bias_probs curr_preferred_side)
    let pref : List ℚ := List.replicate block_num_trials curr_preferred_side.sign
    let tail := buildBlocks stimulus_creator side_bias_probs rest curr_preferred_side.toggle
    ⟨output.sampled_stimuli :: tail.blocks_stimuli,
     output.sampled_sides :: tail.blocks_stimuli_sides,
     output.sampled_strengths :: tail.blocks_stimuli_strengths,
     pref :: tail.blocks_preferred_sides⟩

/-- The mutable episode state of a `ReversalLearningTask` instance after
`reset` has initialised it. -/
structure TaskState (σ η : Type) : Type where
  num_trials_per_block : List ℕ
  stimuli_block_number : List ℕ
  trial_num_within_block : List ℕ
  total_num_trials : ℕ
  stimuli : List σ
  stimuli_sides : List ℚ
  stimuli_strengths : List ℚ
  stimuli_preferred_sides : List ℚ
  rewards : List ℚ
  actions : List (ℚ × ℚ)
  model_hidden_states : List η
  current_trial_idx : ℕ
deriving DecidableEq, Repr

/-- The state built by `reset`, as a function of the explicit random
draws: `geom_samples` are the `num_blocks` geometric samples and
`first_side` is the uniformly random initial preferred side. -/
def resetState {σ η : Type} (stimulus_creator : StimCreator σ)
    (left_bias_probs right_bias_probs : List ℚ)
    (geom_samples : List ℕ) (first_side : Side) : TaskState σ η :=
  let num_trials_per_block := geom_samples.map truncateBlockLength
  let stimuli_block_number :=
    ((num_trials_per_block.zip (List.range' 1 num_trials_per_block.length)).map
      (fun p => List.replicate p.1 p.2)).flatten
  let trial_num_within_block :=
    (num_trials_per_block.map (fun nt => List.range' 1 nt)).flatten
  let total_num_trials := num_trials_per_block.sum
  let blocks := buildBlocks stimulus_creator
    (sideBiasProbs left_bias_probs right_bias_probs) num_trials_per_block first_side
  { num_trials_per_block := num_trials_per_block
    stimuli_block_number := stimuli_block_number
    trial_num_within_block := trial_num_within_block
    total_num_trials := total_num_trials
    stimuli := blocks.blocks_stimuli.flatten
    stimuli_sides := blocks.blocks_stimuli_sides.flatten
    stimuli_strengths := blocks.blocks_stimuli_strengths.flatten
    stimuli_preferred_sides := blocks.blocks_preferred_sides.flatten
    rewards := List.replicate total_num_trials 0
    actions := List.replicate total_num_trials (0, 0)
    model_hidden_states := []
    current_trial_idx := 0 }

/-- The first observation returned by `reset`: the stimulus at
`current_trial_idx` (a fallible indexed read), reward placeholder `0`,
no info, and `done = (current_trial_idx == total_num_trials)`. -/
def resetObs {σ η : Type} (s : TaskState σ η) : Option (Obs σ) :=
  match s.stimuli[s.current_trial_idx]? with
  | none => none
  | some stimulus =>
    some { stimulus := stimulus
           reward := 0
           info := none
           done := decide (s.current_trial_idx = s.total_num_trials) }

/-- One `step` call: compute the reward from the current trial's side
and the agent's action distribution, record reward / action / hidden
state, advance the cursor, and build the next observation from the
post-increment trial. Every indexed read or write that would raise in
the source returns `none` here. -/
def step {σ η : Type} (s : TaskState σ η) (model_softmax_output : ℚ × ℚ)
    (model_hidden : η) : Option (TaskState σ η × Obs σ) :=
  match s.stimuli_sides[s.current_trial_idx]? with
  | none => none
  | some side =>
    match nllLoss ((side + 1) / 2) model_softmax_output with
    | none => none
    | some loss =>
      let reward := -loss
      match setAt s.rewards s.current_trial_idx reward with
      | none => none
      | some rewards =>
        match setAt s.actions s.current_trial_idx model_softmax_output with
        | none => none
        | some actions =>
          let model_hidden_states := s.model_hidden_states ++ [model_hidden]
          let current_trial_idx := s.current_trial_idx + 1
          match s.stimuli[current_trial_idx]? with
          | none => none
          | some stimulus =>
            match s.stimuli_sides[current_trial_idx]? with
            | none => none
            | some stimulus_side =>
              match s.stimuli_strengths[current_trial_idx]? with
              | none => none
              | some stimulus_strength =>
                some ({ s with rewards := rewards
                               actions := actions
                               model_hidden_states := model_hidden_states
                               current_trial_idx := current_trial_idx },
                      { stimulus := stimulus
                        reward := reward
                        info := some { stimulus_side := stimulus_side
                                       stimulus_strength := stimulus_strength }
                        done := decide (current_trial_idx + 1 = s.total_num_trials) })

/-- A sequence of `step` calls, one per listed
`(model_softmax_output, model_hidden)` pair, threading the state. -/
def stepN {σ η : Type} (s : TaskState σ η) :
    List ((ℚ × ℚ) × η) → Option (TaskState σ η)
  | [] => some s
  | (a, h) :: rest =>
    match step s a h with
    | none => none
    | some (s', _) => stepN s' rest

/-- The per-trial arrays that `reset` fills and `step` never resizes,
all expected to have length `total_num_trials`. -/
def WF {σ η : Type} (s : TaskState σ η) : Prop :=
  s.stimuli.length = s.total_num_trials ∧
  s.stimuli_sides.length = s.total_num_trials ∧
  s.stimuli_strengths.length = s.total_num_trials ∧
  s.stimuli_preferred_sides.length = s.total_num_trials ∧
  s.rewards.length = s.total_num_trials ∧
  s.actions.length = s.total_num_trials

/-!
Proof-support lemmas about the embedded operations.
-/

theorem setAt_eq_some_iff {α : Type} {l l' : List α} {i : ℕ} {a : α} :
    setAt l i a = some l' ↔ i < l.length ∧ l' = l.set i a := by
  unfold setAt
  split
  · simp only [Option.some.injEq]
    constructor
    · intro h
      exact ⟨by assumption, h.symm⟩
    · intro h
      exact h.2.symm
  · simp only [reduceCtorEq, false_iff, not_and]
    intro h
    omega

/-- Inversion principle for a successful `step`: names every intermediate
read and write and gives the resulting state and observation. -/
theorem step_inv {σ η : Type} {s : TaskState σ η} {a : ℚ × ℚ} {hd : η}
    {s' : TaskState σ η} {obs : Obs σ}
    (hstep : step s a hd = some (s', obs)) :
    ∃ side loss rewards actions stimulus side2 strength,
      s.stimuli_sides[s.current_trial_idx]? = some side ∧
      nllLoss ((side + 1) / 2) a = some loss ∧
      setAt s.rewards s.current_trial_idx (-loss) = some rewards ∧
      setAt s.actions s.current_trial_idx a = some actions ∧
      s.stimuli[s.current_trial_idx + 1]? = some stimulus ∧
      s.stimuli_sides[s.current_trial_idx + 1]? = some side2 ∧
      s.stimuli_strengths[s.current_trial_idx + 1]? = some strength ∧
      s' = { s with rewards := rewards
                    actions := actions
                    model_hidden_states := s.model_hidden_states ++ [hd]
                    current_trial_idx := s.current_trial_idx + 1 } ∧
      obs = { stimulus := stimulus
              reward := -loss
              info := some { stimulus_side := side2
                             stimulus_strength := strength }
              done := decide (s.current_trial_idx + 1 + 1 = s.total_num_trials) } := by
  simp only [step] at hstep
  split at hstep
  · exact absurd hstep (by simp)
  next side hside =>
    split at hstep
    · exact absurd hstep (by simp)
    next loss hloss =>
      split at hstep
      · exact absurd hstep (by simp)
      next rewards hrewards =>
        split at hstep
        · exact absurd hstep (by simp)
        next actions hactions =>
          split at hstep
          · exact absurd hstep (by simp)
          next stimulus hstimulus =>
            split at hstep
            · exact absurd hstep (by simp)
            next side2 hside2 =>
              split at hstep
              · exact absurd hstep (by simp)
              next strength hstrength =>
                simp only [Option.some.injEq, Prod.mk.injEq] at hstep
                exact ⟨side, loss, rewards, actions, stimulus, side2, strength,
                  hside, hloss, hrewards, hactions, hstimulus, hside2, hstrength,
                  hstep.1.symm, hstep.2.symm⟩

theorem resetState_num_trials_per_block {σ η : Type} (sc : StimCreator σ)
    (l r : List ℚ) (gs : List ℕ) (first : Side) :
    (resetState sc l r gs first : TaskState σ η).num_trials_per_block =
      gs.map truncateBlockLength := rfl

theorem resetState_total_num_trials {σ η : Type} (sc : StimCreator σ)
    (l r : List ℚ) (gs : List ℕ) (first : Side) :
    (resetState sc l r gs first : TaskState σ η).total_num_trials =
      (gs.map truncateBlockLength).sum := rfl

theorem resetState_current_trial_idx {σ η : Type} (sc : StimCreator σ)
    (l r : List ℚ) (gs : List ℕ) (first : Side) :
    (resetState sc l r gs first : TaskState σ η).current_trial_idx = 0 := rfl

theorem resetState_model_hidden_states {σ η : Type} (sc : StimCreator σ)
    (l r : List ℚ) (gs : List ℕ) (first : Side) :
    (resetState sc l r gs first : TaskState σ η).model_hidden_states = [] := rfl

theorem resetState_rewards {σ η : Type} (sc : StimCreator σ)
    (l r : List ℚ) (gs : List ℕ) (first : Side) :
    (resetState sc l r gs first : TaskState σ η).rewards =
      List.replicate (gs.map truncateBlockLength).sum 0 := rfl

theorem resetState_actions {σ η : Type} (sc : StimCreator σ)
    (l r : List ℚ) (gs : List ℕ) (first : Side) :
    (resetState sc l r gs first : TaskState σ η).actions =
      List.replicate (gs.map truncateBlockLength).sum (0, 0) := rfl

theorem resetState_stimuli {σ η : Type} (sc : StimCreator σ)
    (l r : List ℚ) (gs : List ℕ) (first : Side) :
    (resetState sc l r gs first : TaskState σ η).stimuli =
      (buildBlocks sc (sideBiasProbs l r) (gs.map truncateBlockLength)
        first).blocks_stimuli.flatten := rfl

theorem resetState_stimuli_sides {σ η : Type} (sc : StimCreator σ)
    (l r : List ℚ) (gs : List ℕ) (first : Side) :
    (resetState sc l r gs first : TaskState σ η).stimuli_sides =
      (buildBlocks sc (sideBiasProbs l r) (gs.map truncateBlockLength)
        first).blocks_stimuli_sides.flatten := rfl

theorem resetState_stimuli_strengths {σ η : Type} (sc : StimCreator σ)
    (l r : List ℚ) (gs : List ℕ) (first : Side) :
    (resetState sc l r gs first : TaskState σ η).stimuli_strengths =
      (buildBlocks sc (sideBiasProbs l r) (gs.map truncateBlockLength)
        first).blocks_stimuli_strengths.flatten := rfl

theorem resetState_stimuli_preferred_sides {σ η : Type} (sc : StimCreator σ)
    (l r : List ℚ) (gs : List ℕ) (first : Side) :
    (resetState sc l r gs first : TaskState σ η).stimuli_preferred_sides =
      (buildBlocks sc (sideBiasProbs l r) (gs.map truncateBlockLength)
        first).blocks_preferred_sides.flatten := rfl

theorem resetState_stimuli_block_number {σ η : Type} (sc : StimCreator σ)
    (l r : List ℚ) (gs : List ℕ) (first : Side) :
    (resetState sc l r gs first : TaskState σ η).stimuli_block_number =
      (((gs.map truncateBlockLength).zip
          (List.range' 1 (gs.map truncateBlockLength).length)).map
        (fun p => List.replicate p.1 p.2)).flatten := rfl

theorem resetState_trial_num_within_block {σ η : Type} (sc : StimCreator σ)
    (l r : List ℚ) (gs : List ℕ) (first : Side) :
    (resetState sc l r gs first : TaskState σ η).trial_num_within_block =
      ((gs.map truncateBlockLength).map (fun nt => List.range' 1 nt)).flatten := rfl

/-!
A concrete instantiation used by the witness theorems: a deterministic
stimulus creator over integer stimuli and integer hidden states.
-/

/-- A concrete stimulus creator: trial `i` of a block gets stimulus `i`,
side `+1`, strength `1/2`. -/
def testSC : StimCreator ℤ := fun n _ =>
  { sampled_stimuli := (List.range n).map Int.ofNat
    sampled_sides := List.replicate n 1
    sampled_strengths := List.replicate n (1/2) }

/-- A concrete post-reset state: one block whose geometric sample is
exactly 20, first preferred side `left`. -/
def testState : TaskState ℤ ℤ :=
  resetState testSC defaultLeftBiasProbs defaultRightBiasProbs [20] Side.left

/-- The concrete state advanced to trial index 18 (the 19th step call
reads from here). -/
def testState18 : TaskState ℤ ℤ :=
  { testState with current_trial_idx := 18 }

/-- Case form of the two-sided truncation performed in `reset`. -/
theorem truncateBlockLength_eq (n : ℕ) :
    truncateBlockLength n = if n < 20 then 20 else if n > 100 then 100 else n := by
  simp only [truncateBlockLength]
  by_cases h2 : n > 100
  · rw [if_pos h2, if_neg (show ¬ n < 20 by omega), if_pos h2]
  · rw [if_neg h2]
    by_cases h1 : n < 20
    · rw [if_pos h1, if_pos h1]
    · rw [if_neg h1, if_neg h1, if_neg h2]

/-!
Claim theorems.
-/

/-- C10: when the constructor is given no bias-probability vectors, the
defaults are `left = [0.2, 0.8]` and `right = [0.8, 0.2]`, which is
exactly the mirror image of the keyword arguments used by
`create_biased_choice_worlds` (`left = [0.8, 0.2]`,
`right = [0.2, 0.8]`). -/
theorem default_bias_probs_mirror_biased_choice_worlds :
    initSideBiasProbs none none = (defaultLeftBiasProbs, defaultRightBiasProbs) ∧
    defaultLeftBiasProbs = [2/10, 8/10] ∧
    defaultRightBiasProbs = [8/10, 2/10] ∧
    biasedChoiceWorldsLeftBiasProbs = [8/10, 2/10] ∧
    biasedChoiceWorldsRightBiasProbs = [2/10, 8/10] ∧
    defaultLeftBiasProbs = biasedChoiceWorldsRightBiasProbs ∧
    defaultRightBiasProbs = biasedChoiceWorldsLeftBiasProbs :=
  ⟨rfl, rfl, rfl, rfl, rfl, rfl, rfl⟩

/-- C3: after every reset, the block lengths are the geometric samples
truncated pointwise into `[20, 100]` — samples below 20 become exactly
20, samples above 100 become exactly 100, all others (boundaries
included) are unchanged — and every resulting value lies in
`[20, 100]`. -/
theorem reset_block_lengths_truncated {σ η : Type} (sc : StimCreator σ)
    (l r : List ℚ) (gs : List ℕ) (first : Side) :
    (∀ v ∈ (resetState sc l r gs first : TaskState σ η).num_trials_per_block,
        20 ≤ v ∧ v ≤ 100) ∧
    (resetState sc l r gs first : TaskState σ η).num_trials_per_block =
      gs.map truncateBlockLength ∧
    (∀ n, n < 20 → truncateBlockLength n = 20) ∧
    (∀ n, 100 < n → truncateBlockLength n = 100) ∧
    (∀ n, 20 ≤ n → n ≤ 100 → truncateBlockLength n = n) := by
  refine ⟨?_, rfl, ?_, ?_, ?_⟩
  · intro v hv
    rw [resetState_num_trials_per_block] at hv
    obtain ⟨n, _, rfl⟩ := List.mem_map.mp hv
    rw [truncateBlockLength_eq]
    split
    · omega
    · split <;> omega
  · intro n hn
    rw [truncateBlockLength_eq, if_pos hn]
  · intro n hn
    rw [truncateBlockLength_eq, if_neg (by omega), if_pos hn]
  · intro n h1 h2
    rw [truncateBlockLength_eq, if_neg (by omega), if_neg (by omega)]

/-- Witness for C3 at concrete samples 5, 20, 37, 100, 150. -/
theorem reset_block_lengths_truncated_witness :
    truncateBlockLength 5 = 20 ∧ truncateBlockLength 150 = 100 ∧
    truncateBlockLength 20 = 20 ∧ truncateBlockLength 100 = 100 ∧
    truncateBlockLength 37 = 37 ∧
    (20 ≤ truncateBlockLength 5 ∧ truncateBlockLength 5 ≤ 100) := by
  have h := reset_block_lengths_truncated (σ := ℤ) (η := ℤ) testSC
    defaultLeftBiasProbs defaultRightBiasProbs [5, 20, 37, 100, 150] Side.left
  exact ⟨h.2.2.1 5 (by decide), h.2.2.2.1 150 (by decide),
    h.2.2.2.2 20 (by decide) (by decide), h.2.2.2.2 100 (by decide) (by decide),
    h.2.2.2.2 37 (by decide) (by decide),
    h.1 (truncateBlockLength 5) (by decide)⟩

/-- C1: on a successful step, the returned reward is the negation of
`NLLLoss(target = (side + 1) / 2, input = action distribution)` for the
current trial's side; hence when the correct side encodes to target 1
the reward is the second input component, and when it encodes to target
0 the reward is the first. -/
theorem step_reward_is_correct_side_logprob {σ η : Type} (s : TaskState σ η)
    (p0 p1 : ℚ) (hd : η) (s' : TaskState σ η) (obs : Obs σ)
    (hstep : step s (p0, p1) hd = some (s', obs)) :
    (∃ side loss, s.stimuli_sides[s.current_trial_idx]? = some side ∧
        nllLoss ((side + 1) / 2) (p0, p1) = some loss ∧ obs.reward = -loss) ∧
    (s.stimuli_sides[s.current_trial_idx]? = some 1 → obs.reward = p1) ∧
    (s.stimuli_sides[s.current_trial_idx]? = some (-1) → obs.reward = p0) := by
  obtain ⟨side, loss, rws, acs, st, sd2, str, hside, hloss, _, _, _, _, _, hs', hobs⟩ :=
    step_inv hstep
  subst hobs
  refine ⟨⟨side, loss, hside, hloss, rfl⟩, ?_, ?_⟩
  · intro h1
    rw [hside, Option.some_inj] at h1
    subst h1
    have : ((1 : ℚ) + 1) / 2 = 1 := by norm_num
    rw [this] at hloss
    unfold nllLoss at hloss
    norm_num at hloss
    simp [← hloss]
  · intro h0
    rw [hside, Option.some_inj] at h0
    subst h0
    have : ((-1 : ℚ) + 1) / 2 = 0 := by norm_num
    rw [this] at hloss
    unfold nllLoss at hloss
    norm_num at hloss
    simp [← hloss]

/-- Witness for C1: a trial whose correct side is `+1` (target 1), with
input components standing for `log 0.1` and `log 0.9`; the reward is the
second component, the stand-in for `log 0.9`. -/
theorem step_reward_is_correct_side_logprob_witness :
    ∃ p : TaskState ℤ ℤ × Obs ℤ,
      step testState (-2303/1000, -105/1000) (0 : ℤ) = some p ∧
      p.2.reward = -105/1000 := by
  cases hs : step testState ((-2303/1000 : ℚ), (-105/1000 : ℚ)) (0 : ℤ) with
  | none => exact absurd hs (by with_unfolding_all decide)
  | some p =>
    refine ⟨p, rfl, ?_⟩
    rcases p with ⟨s', obs⟩
    exact (step_reward_is_correct_side_logprob testState (-2303/1000) (-105/1000)
      0 s' obs hs).2.1 (by decide)

/-- C2: on a successful step, the returned done flag equals
`(current_trial_idx + 1) == total_num_trials` evaluated after the cursor
increment; hence with exactly 20 total trials the flag is true exactly
when the pre-increment cursor is 18, i.e. on the 19th step call, not
the 20th. -/
theorem step_done_off_by_one {σ η : Type} (s : TaskState σ η) (a : ℚ × ℚ) (hd : η)
    (s' : TaskState σ η) (obs : Obs σ)
    (hstep : step s a hd = some (s', obs)) :
    obs.done = decide (s'.current_trial_idx + 1 = s.total_num_trials) ∧
    (s.total_num_trials = 20 → (obs.done = true ↔ s.current_trial_idx = 18)) := by
  obtain ⟨side, loss, rws, acs, st, sd2, str, _, _, _, _, _, _, _, hs', hobs⟩ :=
    step_inv hstep
  subst hobs
  subst hs'
  refine ⟨rfl, ?_⟩
  intro h20
  rw [h20]
  simp only [decide_eq_true_eq]
  omega

/-- Witness for C2: in the concrete 20-trial episode, the step made at
cursor 18 (the 19th call) returns `done = true`. -/
theorem step_done_off_by_one_witness :
    testState18.total_num_trials = 20 ∧ testState18.current_trial_idx = 18 ∧
    ∃ p : TaskState ℤ ℤ × Obs ℤ,
      step testState18 (1/2, 1/2) (0 : ℤ) = some p ∧ p.2.done = true := by
  refine ⟨by decide, by decide, ?_⟩
  cases hs : step testState18 ((1/2 : ℚ), (1/2 : ℚ)) (0 : ℤ) with
  | none => exact absurd hs (by with_unfolding_all decide)
  | some p =>
    refine ⟨p, rfl, ?_⟩
    rcases p with ⟨s', obs⟩
    exact ((step_done_off_by_one testState18 (1/2, 1/2) 0 s' obs hs).2
      (by decide)).mpr (by decide)

/-- When every block's sampled stimuli come back with the requested
length, the concatenated stimuli have length `sum of block lengths`. -/
theorem buildBlocks_stimuli_length {σ : Type} (sc : StimCreator σ)
    (sbp : Side → List ℚ) (hsc : ∀ n p, (sc n p).sampled_stimuli.length = n) :
    ∀ (nts : List ℕ) (side : Side),
      (buildBlocks sc sbp nts side).blocks_stimuli.flatten.length = nts.sum := by
  intro nts
  induction nts with
  | nil => intro side; rfl
  | cons nt rest ih =>
    intro side
    simp only [buildBlocks, List.flatten_cons, List.length_append, hsc, ih,
      List.sum_cons]

/-- Same as `buildBlocks_stimuli_length` for the sampled sides. -/
theorem buildBlocks_sides_length {σ : Type} (sc : StimCreator σ)
    (sbp : Side → List ℚ) (hsc : ∀ n p, (sc n p).sampled_sides.length = n) :
    ∀ (nts : List ℕ) (side : Side),
      (buildBlocks sc sbp nts side).blocks_stimuli_sides.flatten.length = nts.sum := by
  intro nts
  induction nts with
  | nil => intro side; rfl
  | cons nt rest ih =>
    intro side
    simp only [buildBlocks, List.flatten_cons, List.length_append, hsc, ih,
      List.sum_cons]

/-- Same as `buildBlocks_stimuli_length` for the sampled strengths. -/
theorem buildBlocks_strengths_length {σ : Type} (sc : StimCreator σ)
    (sbp : Side → List ℚ) (hsc : ∀ n p, (sc n p).sampled_strengths.length = n) :
    ∀ (nts : List ℕ) (side : Side),
      (buildBlocks sc sbp nts side).blocks_stimuli_strengths.flatten.length =
        nts.sum := by
  intro nts
  induction nts with
  | nil => intro side; rfl
  | cons nt rest ih =>
    intro side
    simp only [buildBlocks, List.flatten_cons, List.length_append, hsc, ih,
      List.sum_cons]

/-- The concatenated preferred-side array always has length
`sum of block lengths`: each block contributes a constant array of its
own length. -/
theorem buildBlocks_preferred_length {σ : Type} (sc : StimCreator σ)
    (sbp : Side → List ℚ) :
    ∀ (nts : List ℕ) (side : Side),
      (buildBlocks sc sbp nts side).blocks_preferred_sides.flatten.length =
        nts.sum := by
  intro nts
  induction nts with
  | nil => intro side; rfl
  | cons nt rest ih =>
    intro side
    simp only [buildBlocks, List.flatten_cons, List.length_append,
      List.length_replicate, ih, List.sum_cons]

/-- C5: with all per-trial arrays at their post-reset length, a step
taken with `current_trial_idx < total_num_trials - 1` performs only
in-bounds reads and writes; a step taken at the last index (or beyond)
makes its post-increment reads of `stimuli`, `stimuli_sides`, and
`stimuli_strengths` past the end of the arrays, with no internal guard:
the embedded `step` can only fail there. -/
theorem step_index_bounds {σ η : Type} (s : TaskState σ η) (hwf : WF s) :
    (s.current_trial_idx + 1 < s.total_num_trials →
      (s.stimuli_sides[s.current_trial_idx]?).isSome = true ∧
      (∀ x : ℚ, (setAt s.rewards s.current_trial_idx x).isSome = true) ∧
      (∀ a : ℚ × ℚ, (setAt s.actions s.current_trial_idx a).isSome = true) ∧
      (s.stimuli[s.current_trial_idx + 1]?).isSome = true ∧
      (s.stimuli_sides[s.current_trial_idx + 1]?).isSome = true ∧
      (s.stimuli_strengths[s.current_trial_idx + 1]?).isSome = true) ∧
    (s.total_num_trials ≤ s.current_trial_idx + 1 →
      s.stimuli[s.current_trial_idx + 1]? = none ∧
      s.stimuli_sides[s.current_trial_idx + 1]? = none ∧
      s.stimuli_strengths[s.current_trial_idx + 1]? = none ∧
      ∀ (a : ℚ × ℚ) (hd : η), step s a hd = none) := by
  obtain ⟨hst, hsd, hstr, hpref, hrw, hac⟩ := hwf
  constructor
  · intro hlt
    refine ⟨?_, ?_, ?_, ?_, ?_, ?_⟩
    · rw [List.getElem?_eq_getElem (by omega)]; rfl
    · intro x
      unfold setAt
      rw [if_pos (by omega)]; rfl
    · intro a
      unfold setAt
      rw [if_pos (by omega)]; rfl
    · rw [List.getElem?_eq_getElem (by omega)]; rfl
    · rw [List.getElem?_eq_getElem (by omega)]; rfl
    · rw [List.getElem?_eq_getElem (by omega)]; rfl
  · intro hge
    have h1 : s.stimuli[s.current_trial_idx + 1]? = none :=
      List.getElem?_eq_none (by omega)
    have h2 : s.stimuli_sides[s.current_trial_idx + 1]? = none :=
      List.getElem?_eq_none (by omega)
    have h3 : s.stimuli_strengths[s.current_trial_idx + 1]? = none :=
      List.getElem?_eq_none (by omega)
    refine ⟨h1, h2, h3, ?_⟩
    intro a hd
    cases hstep : step s a hd with
    | none => rfl
    | some p =>
      rcases p with ⟨s', obs⟩
      obtain ⟨side, loss, rws, acs, st, sd2, str, _, _, _, _, hstim, _, _, _, _⟩ :=
        step_inv hstep
      rw [h1] at hstim
      exact Option.noConfusion hstim

/-- Witness for C5 on the concrete 20-trial episode: at cursor 0 all
reads are in bounds; at cursor 19 (the last trial) the post-increment
reads are out of bounds and `step` fails. -/
theorem step_index_bounds_witness :
    (testState.current_trial_idx + 1 < testState.total_num_trials ∧
      (testState.stimuli[testState.current_trial_idx + 1]?).isSome = true) ∧
    (testState.total_num_trials ≤ 19 + 1 ∧
      step { testState with current_trial_idx := 19 } (1/2, 1/2) (0 : ℤ) = none) := by
  have hwf : WF testState := by
    refine ⟨?_, ?_, ?_, ?_, ?_, ?_⟩ <;> with_unfolding_all decide
  have hwf19 : WF { testState with current_trial_idx := 19 } := hwf
  constructor
  · exact ⟨by decide, ((step_index_bounds testState hwf).1 (by decide)).2.2.2.1⟩
  · exact ⟨by decide,
      ((step_index_bounds { testState with current_trial_idx := 19 } hwf19).2
        (by decide)).2.2.2 (1/2, 1/2) 0⟩

/-- Successful-`resetObs` inversion: the first observation exists
exactly when the trial-0 stimulus read is in bounds, and then carries
reward `0`, no info, and the literal `done` comparison. -/
theorem resetObs_eq_some_iff {σ η : Type} {s : TaskState σ η} {obs : Obs σ} :
    resetObs s = some obs ↔ ∃ st, s.stimuli[s.current_trial_idx]? = some st ∧
      obs = { stimulus := st
              reward := 0
              info := none
              done := decide (s.current_trial_idx = s.total_num_trials) } := by
  constructor
  · intro h
    unfold resetObs at h
    split at h
    · exact absurd h (by simp)
    next st hst =>
      exact ⟨st, hst, (Option.some_inj.mp h).symm⟩
  · rintro ⟨st, hst, rfl⟩
    simp [resetObs, hst]

/-- C9: the first observation of a reset episode has `done = true` iff
the episode has zero trials; any episode with at least one trial gets a
first observation with `done = false`, the trial-0 stimulus, and a zero
reward placeholder. (With zero total trials the trial-0 read is out of
bounds and no observation is produced at all, which the iff covers
vacuously.) -/
theorem reset_first_observation {σ η : Type} (sc : StimCreator σ)
    (l r : List ℚ) (gs : List ℕ) (first : Side)
    (hsc : ∀ n p, (sc n p).sampled_stimuli.length = n) :
    (∀ obs : Obs σ,
        resetObs (resetState sc l r gs first : TaskState σ η) = some obs →
        (obs.done = true ↔
          (resetState sc l r gs first : TaskState σ η).total_num_trials = 0)) ∧
    ((resetState sc l r gs first : TaskState σ η).total_num_trials ≠ 0 →
      ∃ obs : Obs σ,
        resetObs (resetState sc l r gs first : TaskState σ η) = some obs ∧
        obs.done = false ∧
        some obs.stimulus =
          (resetState sc l r gs first : TaskState σ η).stimuli[0]? ∧
        obs.reward = 0) := by
  have hlen : (resetState sc l r gs first : TaskState σ η).stimuli.length =
      (resetState sc l r gs first : TaskState σ η).total_num_trials := by
    rw [resetState_stimuli, resetState_total_num_trials,
      buildBlocks_stimuli_length sc _ hsc]
  constructor
  · intro obs hobs
    obtain ⟨st, hst, rfl⟩ := resetObs_eq_some_iff.mp hobs
    rw [resetState_current_trial_idx]
    simp only [decide_eq_true_eq]
    exact eq_comm
  · intro h0
    have hpos : 0 < (resetState sc l r gs first : TaskState σ η).stimuli.length := by
      omega
    refine ⟨⟨(resetState sc l r gs first : TaskState σ η).stimuli.get ⟨0, hpos⟩, 0, none,
        decide ((resetState sc l r gs first : TaskState σ η).current_trial_idx =
          (resetState sc l r gs first : TaskState σ η).total_num_trials)⟩,
      resetObs_eq_some_iff.mpr ⟨_, ?_, rfl⟩, ?_, ?_, rfl⟩
    · rw [resetState_current_trial_idx]
      exact List.getElem?_eq_getElem hpos
    · rw [resetState_current_trial_idx]
      simp only [decide_eq_false_iff_not]
      omega
    · exact (List.getElem?_eq_getElem hpos).symm

/-- Witness for C9 on the concrete 20-trial episode. -/
theorem reset_first_observation_witness :
    ∃ obs : Obs ℤ, resetObs testState = some obs ∧ obs.done = false ∧
      some obs.stimulus = testState.stimuli[0]? ∧ obs.reward = 0 := by
  exact (reset_first_observation testSC defaultLeftBiasProbs
    defaultRightBiasProbs [20] Side.left
    (by intro n p; simp [testSC])).2 (by with_unfolding_all decide)

/-- C6: after a reset whose stimulus creator honours the requested block
lengths, the block lengths sum to `total_num_trials` and all eight
per-trial arrays have length `total_num_trials`. -/
theorem reset_array_lengths {σ η : Type} (sc : StimCreator σ)
    (l r : List ℚ) (gs : List ℕ) (first : Side)
    (hsc : ∀ n p, (sc n p).sampled_stimuli.length = n ∧
        (sc n p).sampled_sides.length = n ∧
        (sc n p).sampled_strengths.length = n) :
    (resetState sc l r gs first : TaskState σ η).num_trials_per_block.sum =
      (resetState sc l r gs first : TaskState σ η).total_num_trials ∧
    WF (resetState sc l r gs first : TaskState σ η) ∧
    (resetState sc l r gs first : TaskState σ η).stimuli_block_number.length =
      (resetState sc l r gs first : TaskState σ η).total_num_trials ∧
    (resetState sc l r gs first : TaskState σ η).trial_num_within_block.length =
      (resetState sc l r gs first : TaskState σ η).total_num_trials := by
  rw [resetState_num_trials_per_block, resetState_total_num_trials,
    resetState_stimuli_block_number, resetState_trial_num_within_block]
  refine ⟨rfl, ?_, ?_, ?_⟩
  · refine ⟨?_, ?_, ?_, ?_, ?_, ?_⟩
    · rw [resetState_stimuli, resetState_total_num_trials,
        buildBlocks_stimuli_length sc _ (fun n p => (hsc n p).1)]
    · rw [resetState_stimuli_sides, resetState_total_num_trials,
        buildBlocks_sides_length sc _ (fun n p => (hsc n p).2.1)]
    · rw [resetState_stimuli_strengths, resetState_total_num_trials,
        buildBlocks_strengths_length sc _ (fun n p => (hsc n p).2.2)]
    · rw [resetState_stimuli_preferred_sides, resetState_total_num_trials,
        buildBlocks_preferred_length]
    · rw [resetState_rewards, resetState_total_num_trials, List.length_replicate]
    · rw [resetState_actions, resetState_total_num_trials, List.length_replicate]
  · rw [List.length_flatten, List.map_map]
    have hmap : (List.length ∘ fun p : ℕ × ℕ => List.replicate p.1 p.2) = Prod.fst := by
      funext p
      simp
    rw [hmap, List.map_fst_zip]
    rw [List.length_range']
  · rw [List.length_flatten, List.map_map]
    have hmap : (List.length ∘ fun nt : ℕ => List.range' 1 nt) = id := by
      funext nt
      simp [List.length_range']
    rw [hmap, List.map_id]

/-- Witness for C6 on the concrete 20-trial episode. -/
theorem reset_array_lengths_witness :
    testState.num_trials_per_block.sum = testState.total_num_trials ∧
    testState.stimuli.length = testState.total_num_trials ∧
    testState.stimuli_block_number.length = testState.total_num_trials := by
  have h := reset_array_lengths (σ := ℤ) (η := ℤ) testSC defaultLeftBiasProbs
    defaultRightBiasProbs [20] Side.left
    (by intro n p; refine ⟨?_, ?_, ?_⟩ <;> simp [testSC])
  exact ⟨h.1, h.2.1.1, h.2.2.1⟩

/-- The block-number array as a recursion: block `k` contributes its
length in copies of `k`, then the remaining blocks follow from `k+1`. -/
def blockNumbersFrom : ℕ → List ℕ → List ℕ
  | _, [] => []
  | k, nt :: rest => List.replicate nt k ++ blockNumbersFrom (k + 1) rest

theorem flatten_zip_range'_eq_blockNumbersFrom :
    ∀ (l : List ℕ) (k : ℕ),
      ((l.zip (List.range' k l.length)).map (fun p => List.replicate p.1 p.2)).flatten
        = blockNumbersFrom k l := by
  intro l
  induction l with
  | nil => intro k; rfl
  | cons nt rest ih =>
    intro k
    simp only [List.length_cons, List.range'_succ, List.zip_cons_cons, List.map_cons,
      List.flatten_cons, blockNumbersFrom, ih]

theorem mem_blockNumbersFrom {v : ℕ} :
    ∀ (l : List ℕ) (k : ℕ), v ∈ blockNumbersFrom k l → k ≤ v ∧ v < k + l.length := by
  intro l
  induction l with
  | nil => intro k h; exact absurd h (List.not_mem_nil v)
  | cons nt rest ih =>
    intro k h
    rw [blockNumbersFrom, List.mem_append] at h
    rcases h with h | h
    · obtain ⟨-, rfl⟩ := List.mem_replicate.mp h
      simp only [List.length_cons]
      omega
    · have := ih (k + 1) h
      simp only [List.length_cons]
      omega

theorem mem_blockNumbersFrom_of {v : ℕ} :
    ∀ (l : List ℕ) (k : ℕ), (∀ nt ∈ l, nt ≠ 0) → k ≤ v → v < k + l.length →
      v ∈ blockNumbersFrom k l := by
  intro l
  induction l with
  | nil =>
    intro k _ h1 h2
    simp only [List.length_nil] at h2
    omega
  | cons nt rest ih =>
    intro k hpos h1 h2
    rw [blockNumbersFrom, List.mem_append]
    by_cases hv : v = k
    · exact Or.inl (List.mem_replicate.mpr ⟨hpos nt (List.mem_cons_self nt rest), hv⟩)
    · refine Or.inr (ih (k + 1) (fun x hx => hpos x (List.mem_cons_of_mem nt hx))
        (by omega) ?_)
      simp only [List.length_cons] at h2
      omega

theorem sorted_blockNumbersFrom :
    ∀ (l : List ℕ) (k : ℕ), List.Sorted (· ≤ ·) (blockNumbersFrom k l) := by
  intro l
  induction l with
  | nil => intro k; exact List.sorted_nil
  | cons nt rest ih =>
    intro k
    rw [blockNumbersFrom]
    refine List.pairwise_append.mpr ⟨?_, ih (k + 1), ?_⟩
    · exact List.pairwise_replicate.mpr (Or.inr le_rfl)
    · intro a ha b hb
      obtain ⟨-, hak⟩ := List.mem_replicate.mp ha
      have hbb := mem_blockNumbersFrom rest (k + 1) hb
      omega

theorem count_blockNumbersFrom :
    ∀ (l : List ℕ) (k i : ℕ), (h : i < l.length) →
      (blockNumbersFrom k l).count (k + i) = l[i] := by
  intro l
  induction l with
  | nil =>
    intro k i h
    simp only [List.length_nil] at h
    omega
  | cons nt rest ih =>
    intro k i h
    rw [blockNumbersFrom, List.count_append]
    cases i with
    | zero =>
      have htail : (blockNumbersFrom (k + 1) rest).count (k + 0) = 0 :=
        List.count_eq_zero.mpr (fun hmem => by
          have := mem_blockNumbersFrom rest (k + 1) hmem
          omega)
      rw [htail, List.count_replicate]
      simp
    | succ j =>
      have hrep : (List.replicate nt k).count (k + (j + 1)) = 0 := by
        rw [List.count_replicate]
        simp only [beq_iff_eq]
        rw [if_neg (by omega)]
      rw [hrep, Nat.zero_add]
      have harg : k + (j + 1) = (k + 1) + j := by omega
      rw [harg, ih (k + 1) j (by simpa using h)]
      simp

/-- C7: after reset, the per-trial block-number array is non-decreasing,
its members are exactly the 1-based block indices `1 .. num_blocks`,
block index `i+1` occurs exactly `num_trials_per_block[i]` times, and
the within-block trial numbers are, block by block, the 1-based
sequences `1 .. block length`. -/
theorem reset_block_number_structure {σ η : Type} (sc : StimCreator σ)
    (l r : List ℚ) (gs : List ℕ) (first : Side) :
    List.Sorted (· ≤ ·)
      (resetState sc l r gs first : TaskState σ η).stimuli_block_number ∧
    (∀ i, i < gs.length →
      (resetState sc l r gs first : TaskState σ η).num_trials_per_block[i]? =
        some ((resetState sc l r gs first :
          TaskState σ η).stimuli_block_number.count (i + 1))) ∧
    (∀ v, v ∈ (resetState sc l r gs first : TaskState σ η).stimuli_block_number ↔
      1 ≤ v ∧ v ≤ gs.length) ∧
    (resetState sc l r gs first : TaskState σ η).trial_num_within_block =
      ((resetState sc l r gs first : TaskState σ η).num_trials_per_block.map
        (fun nt => (List.range nt).map (fun j => j + 1))).flatten := by
  rw [resetState_stimuli_block_number, resetState_num_trials_per_block,
    resetState_trial_num_within_block, flatten_zip_range'_eq_blockNumbersFrom]
  refine ⟨sorted_blockNumbersFrom _ 1, ?_, ?_, ?_⟩
  · intro i hi
    have hlen : i < (gs.map truncateBlockLength).length := by
      rw [List.length_map]
      exact hi
    rw [List.getElem?_eq_getElem hlen]
    have hcount := count_blockNumbersFrom (gs.map truncateBlockLength) 1 i hlen
    rw [Nat.add_comm 1 i] at hcount
    rw [hcount]
  · intro v
    constructor
    · intro hv
      have := mem_blockNumbersFrom (gs.map truncateBlockLength) 1 hv
      rw [List.length_map] at this
      omega
    · intro hv
      refine mem_blockNumbersFrom_of (gs.map truncateBlockLength) 1 ?_ (by omega) ?_
      · intro nt hnt
        obtain ⟨n, -, rfl⟩ := List.mem_map.mp hnt
        rw [truncateBlockLength_eq]
        split
        · omega
        · split <;> omega
      · rw [List.length_map]
        omega
  · have hfun : (fun nt => List.range' 1 nt) =
        fun nt : ℕ => (List.range nt).map (fun j => j + 1) := by
      funext nt
      rw [List.range'_eq_map_range]
      have h1 : (fun j : ℕ => 1 + j) = fun j : ℕ => j + 1 := by
        funext j
        omega
      rw [h1]
    rw [hfun]

/-- Witness for C7 with two blocks of truncated lengths 20 and 25. -/
theorem reset_block_number_structure_witness :
    (resetState testSC defaultLeftBiasProbs defaultRightBiasProbs [20, 25]
      Side.left : TaskState ℤ ℤ).num_trials_per_block[1]? =
      some ((resetState testSC defaultLeftBiasProbs defaultRightBiasProbs [20, 25]
        Side.left : TaskState ℤ ℤ).stimuli_block_number.count 2) ∧
    ((3 : ℕ) ∉ (resetState testSC defaultLeftBiasProbs defaultRightBiasProbs [20, 25]
      Side.left : TaskState ℤ ℤ).stimuli_block_number) := by
  have h := reset_block_number_structure (σ := ℤ) (η := ℤ) testSC
    defaultLeftBiasProbs defaultRightBiasProbs [20, 25] Side.left
  refine ⟨h.2.1 1 (by decide), ?_⟩
  intro hmem
  have h3 := (h.2.2.1 3).mp hmem
  simp only [List.length_cons, List.length_nil] at h3
  omega

/-- The alternating preferred-side sign sequence, starting from the
given first side and toggling once per block. -/
def signList : Side → ℕ → List ℚ
  | _, 0 => []
  | sd, n + 1 => sd.sign :: signList sd.toggle n

theorem toggle_toggle (sd : Side) : sd.toggle.toggle = sd := by
  cases sd <;> rfl

theorem toggle_sign (sd : Side) : sd.toggle.sign = -sd.sign := by
  cases sd <;> simp [Side.toggle, Side.sign]

theorem buildBlocks_preferred_eq {σ : Type} (sc : StimCreator σ)
    (sbp : Side → List ℚ) :
    ∀ (nts : List ℕ) (side : Side),
      (buildBlocks sc sbp nts side).blocks_preferred_sides =
        (nts.zip (signList side nts.length)).map
          (fun p => List.replicate p.1 p.2) := by
  intro nts
  induction nts with
  | nil => intro side; rfl
  | cons nt rest ih =>
    intro side
    simp only [buildBlocks, List.length_cons, signList, List.zip_cons_cons,
      List.map_cons, ih]

theorem signList_getElem :
    ∀ (n : ℕ) (sd : Side) (i : ℕ), i < n →
      (signList sd n)[i]? =
        some (if i % 2 = 0 then sd.sign else sd.toggle.sign) := by
  intro n
  induction n with
  | zero =>
    intro sd i h
    omega
  | succ m ih =>
    intro sd i h
    cases i with
    | zero => simp [signList]
    | succ j =>
      rw [signList, List.getElem?_cons_succ, ih sd.toggle j (by omega)]
      by_cases hj : j % 2 = 0
      · rw [if_pos hj, if_neg (by omega)]
      · rw [if_neg hj, if_pos (by omega), toggle_toggle]

/-- C4: after reset, the preferred-side array is, block by block, a
constant array of the block's sign drawn from the alternating sequence
`signList first_side`; that sequence starts at the randomly drawn first
side's sign (`-1` for left, `+1` for right) and each later block's sign
is the negation of its predecessor's. -/
theorem reset_preferred_sides_alternate {σ η : Type} (sc : StimCreator σ)
    (l r : List ℚ) (gs : List ℕ) (first : Side) :
    (resetState sc l r gs first : TaskState σ η).stimuli_preferred_sides =
      (((gs.map truncateBlockLength).zip
          (signList first (gs.map truncateBlockLength).length)).map
        (fun p => List.replicate p.1 p.2)).flatten ∧
    (∀ i, i + 1 < gs.length →
      (signList first gs.length)[i + 1]? =
        ((signList first gs.length)[i]?).map (fun q : ℚ => -q)) ∧
    (0 < gs.length → (signList first gs.length)[0]? = some first.sign) ∧
    (first.sign = -1 ∨ first.sign = 1) := by
  refine ⟨?_, ?_, ?_, ?_⟩
  · rw [resetState_stimuli_preferred_sides, buildBlocks_preferred_eq]
  · intro i hi
    rw [signList_getElem gs.length first (i + 1) (by omega),
      signList_getElem gs.length first i (by omega)]
    simp only [Option.map]
    by_cases hi2 : i % 2 = 0
    · rw [if_pos hi2, if_neg (by omega), toggle_sign]
    · rw [if_neg hi2, if_pos (by omega), toggle_sign, neg_neg]
  · intro h
    rw [signList_getElem gs.length first 0 h]
    simp
  · cases first
    · exact Or.inl rfl
    · exact Or.inr rfl

/-- Witness for C4 with two blocks, first side left: the sign sequence
is `[-1, 1]`, alternating and starting at `left`'s sign. -/
theorem reset_preferred_sides_alternate_witness :
    (signList Side.left 2)[1]? = ((signList Side.left 2)[0]?).map (fun q : ℚ => -q) ∧
    (signList Side.left 2)[0]? = some Side.left.sign := by
  have h := reset_preferred_sides_alternate (σ := ℤ) (η := ℤ) testSC
    defaultLeftBiasProbs defaultRightBiasProbs [20, 25] Side.left
  have h1 := h.2.1 0 (by decide)
  have h2 := h.2.2.1 (by decide)
  simp only [List.length_cons, List.length_nil] at h1 h2
  exact ⟨h1, h2⟩

/-- Trace invariant for a run of `step` calls: the cursor advances once
per call, hidden states accumulate in order, the reset-built arrays are
never modified, already-recorded rewards/actions are never overwritten,
and each call records its action and the reward computed from its
trial's side. -/
theorem stepN_inv {σ η : Type} :
    ∀ (inputs : List ((ℚ × ℚ) × η)) (s sk : TaskState σ η),
      stepN s inputs = some sk →
      sk.current_trial_idx = s.current_trial_idx + inputs.length ∧
      sk.model_hidden_states = s.model_hidden_states ++ inputs.map Prod.snd ∧
      sk.stimuli = s.stimuli ∧
      sk.stimuli_sides = s.stimuli_sides ∧
      sk.stimuli_strengths = s.stimuli_strengths ∧
      sk.stimuli_preferred_sides = s.stimuli_preferred_sides ∧
      sk.num_trials_per_block = s.num_trials_per_block ∧
      sk.stimuli_block_number = s.stimuli_block_number ∧
      sk.trial_num_within_block = s.trial_num_within_block ∧
      sk.total_num_trials = s.total_num_trials ∧
      (∀ i, i < s.current_trial_idx →
        sk.rewards[i]? = s.rewards[i]? ∧ sk.actions[i]? = s.actions[i]?) ∧
      (∀ j, (hj : j < inputs.length) →
        sk.actions[s.current_trial_idx + j]? = some (inputs[j].1) ∧
        ∃ side, s.stimuli_sides[s.current_trial_idx + j]? = some side ∧
          sk.rewards[s.current_trial_idx + j]? =
            (nllLoss ((side + 1) / 2) (inputs[j].1)).map (fun loss => -loss)) := by
  intro inputs
  induction inputs with
  | nil =>
    intro s sk h
    simp only [stepN, Option.some_inj] at h
    subst h
    refine ⟨by simp, by simp, rfl, rfl, rfl, rfl, rfl, rfl, rfl, rfl, ?_, ?_⟩
    · intro i _
      exact ⟨rfl, rfl⟩
    · intro j hj
      simp only [List.length_nil] at hj
      omega
  | cons a rest ih =>
    rcases a with ⟨act, hd⟩
    intro s sk h
    simp only [stepN] at h
    split at h
    · exact absurd h (by simp)
    next s1 obs heq =>
      obtain ⟨side, loss, rws, acs, st, sd2, str, hside, hloss, hrws, hacs,
        -, -, -, hs1, -⟩ := step_inv heq
      obtain ⟨hrwlt, hrweq⟩ := setAt_eq_some_iff.mp hrws
      obtain ⟨haclt, haceq⟩ := setAt_eq_some_iff.mp hacs
      have e_idx : s1.current_trial_idx = s.current_trial_idx + 1 := by rw [hs1]
      have e_hid : s1.model_hidden_states = s.model_hidden_states ++ [hd] := by
        rw [hs1]
      have e_rw : s1.rewards = s.rewards.set s.current_trial_idx (-loss) := by
        rw [hs1]
        exact hrweq
      have e_ac : s1.actions = s.actions.set s.current_trial_idx act := by
        rw [hs1]
        exact haceq
      have e_st : s1.stimuli = s.stimuli := by rw [hs1]
      have e_sd : s1.stimuli_sides = s.stimuli_sides := by rw [hs1]
      have e_str : s1.stimuli_strengths = s.stimuli_strengths := by rw [hs1]
      have e_pref : s1.stimuli_preferred_sides = s.stimuli_preferred_sides := by
        rw [hs1]
      have e_nt : s1.num_trials_per_block = s.num_trials_per_block := by rw [hs1]
      have e_bn : s1.stimuli_block_number = s.stimuli_block_number := by rw [hs1]
      have e_tn : s1.trial_num_within_block = s.trial_num_within_block := by
        rw [hs1]
      have e_tot : s1.total_num_trials = s.total_num_trials := by rw [hs1]
      obtain ⟨ih1, ih2, ih3, ih4, ih5, ih6, ih7, ih8, ih9, ih10, ihpres, ihrec⟩ :=
        ih s1 sk h
      refine ⟨?_, ?_, ih3.trans e_st, ih4.trans e_sd, ih5.trans e_str,
        ih6.trans e_pref, ih7.trans e_nt, ih8.trans e_bn, ih9.trans e_tn,
        ih10.trans e_tot, ?_, ?_⟩
      · rw [ih1, e_idx, List.length_cons]
        omega
      · rw [ih2, e_hid, List.map_cons, List.append_assoc]
        rfl
      · intro i hi
        have hp := ihpres i (by omega)
        refine ⟨?_, ?_⟩
        · rw [hp.1, e_rw, List.getElem?_set_ne (by omega)]
        · rw [hp.2, e_ac, List.getElem?_set_ne (by omega)]
      · intro j hj
        cases j with
        | zero =>
          have hp := ihpres s.current_trial_idx (by omega)
          refine ⟨?_, side, ?_, ?_⟩
          · rw [Nat.add_zero, hp.2, e_ac, List.getElem?_set_eq_of_lt act haclt]
            simp
          · rw [Nat.add_zero]
            exact hside
          · rw [Nat.add_zero, hp.1, e_rw, List.getElem?_set_eq_of_lt _ hrwlt]
            simp only [List.getElem_cons_zero]
            rw [hloss]
            rfl
        | succ j2 =>
          have hj2 : j2 < rest.length := by
            simp only [List.length_cons] at hj
            omega
          have hrec := ihrec j2 hj2
          have hidx2 : s1.current_trial_idx + j2 = s.current_trial_idx + (j2 + 1) := by
            omega
          refine ⟨?_, ?_⟩
          · have ha := hrec.1
            rw [hidx2] at ha
            rw [ha]
            simp
          · obtain ⟨sd, hsd, hrw2⟩ := hrec.2
            rw [e_sd, hidx2] at hsd
            rw [hidx2] at hrw2
            refine ⟨sd, hsd, ?_⟩
            rw [hrw2]
            simp

/-- C8: a successful step writes the returned reward and the supplied
action at the pre-increment cursor, appends exactly one hidden-state
snapshot, increments the cursor by one, and leaves the reset-built data
unchanged; consequently after `k` successful steps from a reset state
the cursor is `k`, `k` hidden states are stored, and positions
`0 .. k-1` of `actions`/`rewards` hold each step's action and its
computed reward. -/
theorem step_effects_and_trace (σ η : Type) :
    (∀ (s : TaskState σ η) (a : ℚ × ℚ) (hd : η) (s' : TaskState σ η) (obs : Obs σ),
      step s a hd = some (s', obs) →
      s'.rewards = s.rewards.set s.current_trial_idx obs.reward ∧
      s'.actions = s.actions.set s.current_trial_idx a ∧
      s'.model_hidden_states = s.model_hidden_states ++ [hd] ∧
      s'.current_trial_idx = s.current_trial_idx + 1 ∧
      s'.stimuli = s.stimuli ∧
      s'.stimuli_sides = s.stimuli_sides ∧
      s'.stimuli_strengths = s.stimuli_strengths ∧
      s'.stimuli_preferred_sides = s.stimuli_preferred_sides ∧
      s'.num_trials_per_block = s.num_trials_per_block ∧
      s'.total_num_trials = s.total_num_trials) ∧
    (∀ (sc : StimCreator σ) (l r : List ℚ) (gs : List ℕ) (first : Side)
        (inputs : List ((ℚ × ℚ) × η)) (sk : TaskState σ η),
      stepN (resetState sc l r gs first) inputs = some sk →
      sk.current_trial_idx = inputs.length ∧
      sk.model_hidden_states.length = inputs.length ∧
      (∀ j, (hj : j < inputs.length) →
        sk.actions[j]? = some (inputs[j].1) ∧
        ∃ side,
          (resetState sc l r gs first : TaskState σ η).stimuli_sides[j]? =
            some side ∧
          sk.rewards[j]? =
            (nllLoss ((side + 1) / 2) (inputs[j].1)).map (fun loss => -loss))) := by
  constructor
  · intro s a hd s' obs hstep
    obtain ⟨side, loss, rws, acs, st, sd2, str, hside, hloss, hrws, hacs,
      -, -, -, hs', hobs⟩ := step_inv hstep
    obtain ⟨-, hrweq⟩ := setAt_eq_some_iff.mp hrws
    obtain ⟨-, haceq⟩ := setAt_eq_some_iff.mp hacs
    subst hs' hobs
    exact ⟨hrweq, haceq, rfl, rfl, rfl, rfl, rfl, rfl, rfl, rfl⟩
  · intro sc l r gs first inputs sk hstepN
    obtain ⟨h1, h2, -, -, -, -, -, -, -, -, -, hrec⟩ :=
      stepN_inv inputs (resetState sc l r gs first) sk hstepN
    refine ⟨?_, ?_, ?_⟩
    · rw [h1, resetState_current_trial_idx, Nat.zero_add]
    · rw [h2, resetState_model_hidden_states, List.nil_append, List.length_map]
    · intro j hj
      have hr := hrec j hj
      rw [resetState_current_trial_idx, Nat.zero_add] at hr
      exact hr

/-- Witness for C8: one concrete step from the concrete reset state
records the hidden state, advances the cursor to 1, and the one-element
trace has the recorded action at position 0. -/
theorem step_effects_and_trace_witness :
    (∃ p : TaskState ℤ ℤ × Obs ℤ,
      step testState (1/2, 1/2) (7 : ℤ) = some p ∧
      p.1.model_hidden_states = [(7 : ℤ)] ∧ p.1.current_trial_idx = 1) ∧
    (∃ sk : TaskState ℤ ℤ,
      stepN testState [((1/2, 1/2), (7 : ℤ))] = some sk ∧
      sk.current_trial_idx = 1 ∧ sk.model_hidden_states.length = 1 ∧
      sk.actions[0]? = some (1/2, 1/2)) := by
  constructor
  · cases hs : step testState ((1/2 : ℚ), (1/2 : ℚ)) (7 : ℤ) with
    | none => exact absurd hs (by with_unfolding_all decide)
    | some p =>
      rcases p with ⟨s', obs⟩
      have h := (step_effects_and_trace ℤ ℤ).1 testState (1/2, 1/2) 7 s' obs hs
      refine ⟨(s', obs), rfl, ?_, ?_⟩
      · rw [h.2.2.1]
        rfl
      · rw [h.2.2.2.1]
        rfl
  · cases hsN : stepN testState [(((1/2 : ℚ), (1/2 : ℚ)), (7 : ℤ))] with
    | none => exact absurd hsN (by with_unfolding_all decide)
    | some sk =>
      have h := (step_effects_and_trace ℤ ℤ).2 testSC defaultLeftBiasProbs
        defaultRightBiasProbs [20] Side.left [((1/2, 1/2), (7 : ℤ))] sk hsN
      have ha := (h.2.2 0 (by decide)).1
      simp only [List.getElem_cons_zero] at ha
      exact ⟨sk, rfl, h.1, h.2.1, ha⟩

end ReversalLearningTask
